import Mathlib

/-!
Verification of the AArch64 inline-hook instruction relocator
(`And64InlineHook.cpp`).

The development is a shallow embedding of the C++ source: addresses are
modelled as `Int` (the C code computes with `int64_t` addresses), 32-bit
instruction words as `Nat` values below `2 ^ 32`, memory as a word-indexed
function `Int → Nat` (the word stored at a 4-aligned byte address), and the
trampoline output buffer as the list of words emitted so far together with
its base address.  C integer conversions are made explicit:
`toInt32` is the `static_cast<int32_t>` truncation, `asr` is the arithmetic
(sign-preserving, i.e. flooring) right shift on signed values, `lowBits`
is `& (2^n - 1)` on a signed value, and `int64lo` / `int64hi` split an
`int64_t` into the two little-endian 32-bit words that `memcpy` stores.
The two NOP-alignment `while` loops of `__fix_loadlit` are rendered by the
closed form of the number of iterations they perform (they insert NOPs one
word at a time until an alignment condition holds, which takes at most
three iterations whenever the cursor is word-aligned, and the closed form
agrees with the loop on every input on which the loop terminates).
-/

namespace And64

/-- `static_cast<int32_t>` of a C integer value: reduce mod `2^32` and
re-interpret as a signed two's-complement 32-bit value. -/
def toInt32 (x : Int) : Int :=
  let m := x.emod (2 ^ 32)
  if m < 2 ^ 31 then m else m - 2 ^ 32

/-- C arithmetic right shift on a signed value (`>>` on a negative signed
integer is an arithmetic shift, i.e. a flooring division by `2^n`). -/
def asr (x : Int) (n : Nat) : Int := x.fdiv (2 ^ n)

/-- The low `n` bits of a signed value, as a natural number; this is what
`x & (2^n - 1)` computes on a two's-complement machine. -/
def lowBits (x : Int) (n : Nat) : Nat := (x.emod (2 ^ n)).toNat

/-- Low 32-bit word of an `int64_t`, as stored in memory by `memcpy`
(little-endian). -/
def int64lo (x : Int) : Nat := lowBits x 32

/-- High 32-bit word of an `int64_t`, as stored in memory by `memcpy`
(little-endian). -/
def int64hi (x : Int) : Nat := lowBits x 64 / 2 ^ 32

/-- Number of binary digits of `n` (with 32 units of fuel, enough for any
32-bit value); auxiliary for `clz32`. -/
def bitLen : Nat → Nat → Nat
  | 0, _ => 0
  | fuel + 1, n => if n = 0 then 0 else bitLen fuel (n / 2) + 1

/-- `__builtin_clz` on a 32-bit value: the count of leading zero bits. -/
def clz32 (n : Nat) : Nat := 32 - bitLen 32 n

/-- The AArch64 NOP encoding (`A64_NOP` in the source). -/
def A64_NOP : Nat := 0xd503201f

/-- Read the 32-bit word at byte address `a`; the `% 2 ^ 32` keeps the
model honest when the ambient memory function returns an overly large
value. -/
def fetch (mem : Int → Nat) (a : Int) : Nat := mem a % 2 ^ 32

/-- One deferred fix-up record (`context::fix_info`): the trampoline
address `bp` of the word to patch, the left shift `ls` of the immediate
field and its mask `ad`. -/
structure FixInfo where
  bp : Int
  ls : Nat
  ad : Nat

/-- Per-instruction record (`context::insns_info`): the address `ins` of
the instruction's translated form in the trampoline, and the list of
deferred fix-ups filed against this instruction (`fmap`; the C array of
`A64_MAX_REFERENCES = 10` slots holds its non-null prefix). -/
structure InsInfo where
  ins : Int
  fmap : List FixInfo

/-- The relocation context (`struct context`): bounds of the input window
and the per-instruction records, indexed by instruction index. -/
structure Ctx where
  basep : Int
  endp : Int
  dat : Int → InsInfo

/-- `context::is_in_fixing_range`. -/
def Ctx.isInFixingRange (c : Ctx) (a : Int) : Prop :=
  c.basep ≤ a ∧ a < c.endp

instance (c : Ctx) (a : Int) : Decidable (c.isInFixingRange a) :=
  inferInstanceAs (Decidable (_ ∧ _))

/-- `context::get_ref_ins_index`: `(addr - basep) / 4` with C (truncating)
signed division. -/
def Ctx.getRefInsIndex (c : Ctx) (a : Int) : Int := (a - c.basep).tdiv 4

/-- Record the trampoline position of instruction `idx`
(`get_and_set_current_index` / `reset_current_ins`). -/
def Ctx.setCurrent (c : Ctx) (idx : Int) (outp : Int) : Ctx :=
  { c with dat := fun j => if j = idx then { c.dat j with ins := outp } else c.dat j }

/-- `context::insert_fix_map`: append a fix-up to `fmap[idx]` if a free
slot remains (capacity `A64_MAX_REFERENCES = 10`), else drop it. -/
def Ctx.insertFixMap (c : Ctx) (idx : Int) (bp : Int) (ls ad : Nat) : Ctx :=
  { c with dat := fun j =>
      if j = idx then
        if (c.dat j).fmap.length < 10 then
          { c.dat j with fmap := (c.dat j).fmap ++ [⟨bp, ls, ad⟩] }
        else c.dat j
      else c.dat j }

/-- The value OR-ed into a deferred word by `process_fix_map`:
`((int32_t(target - bp) >> 2) << ls) & ad`. -/
def patchWord (d bp : Int) (ls ad : Nat) : Nat :=
  lowBits (asr (toInt32 (d - bp)) 2 * 2 ^ ls) 32 &&& ad

/-- Apply one deferred fix-up to the trampoline buffer: OR `patchWord`
into the word at address `f.bp`. -/
def applyFix (outBase : Int) (d : Int) (buf : List Nat) (f : FixInfo) : List Nat :=
  let i := ((f.bp - outBase).tdiv 4).toNat
  buf.set i (buf.getD i 0 ||| patchWord d f.bp f.ls f.ad)

/-- `context::process_fix_map`: resolve every fix-up filed against
instruction `idx` against its now-final trampoline address and clear the
list. -/
def processFixMap (outBase : Int) (buf : List Nat) (c : Ctx) (idx : Int) :
    List Nat × Ctx :=
  let buf' := (c.dat idx).fmap.foldl (applyFix outBase (c.dat idx).ins) buf
  (buf', { c with dat := fun j =>
      if j = idx then { c.dat j with fmap := [] } else c.dat j })

/-- The relocator state: current input address, trampoline base, the words
emitted so far, and the fix-up context.  The output cursor is
`outBase + 4 * buf.length`. -/
structure TState where
  inp : Int
  outBase : Int
  buf : List Nat
  ctx : Ctx

/-- The current output cursor (the C `*outpp`). -/
def TState.out (s : TState) : Int := s.outBase + 4 * s.buf.length

/-- The tail every recognising rewriter executes: run `process_fix_map` on
the current instruction's index and advance the input cursor one word. -/
def finishFix (curIdx : Int) (s1 : TState) : TState :=
  let pr := processFixMap s1.outBase s1.buf s1.ctx curIdx
  { inp := s1.inp + 4, outBase := s1.outBase, buf := pr.1, ctx := pr.2 }

/-- `__fix_branch_imm`: rewrite `B` / `BL` (top six bits `000101` /
`100101`). -/
def fixBranchImm (mem : Int → Nat) (s : TState) : Option TState :=
  let ins := fetch mem s.inp
  let opc := ins &&& 0xfc000000
  if opc = 0x14000000 ∨ opc = 0x94000000 then
    let curIdx := s.ctx.getRefInsIndex s.inp
    let absAddr := s.inp + asr (toInt32 ((ins <<< 6 : Nat) : Int)) 4
    let off := asr (absAddr - s.out) 2
    let s0 : TState := { s with ctx := s.ctx.setCurrent curIdx s.out }
    let s1 : TState :=
      if ¬ s.ctx.isInFixingRange absAddr ∧ 0x01ffffff ≤ off.natAbs then
        if opc = 0x14000000 then
          let s2 : TState :=
            if ¬ (s0.out + 8).emod 8 = 0 then
              { s0 with buf := s0.buf ++ [A64_NOP],
                        ctx := s0.ctx.setCurrent curIdx (s0.out + 4) }
            else s0
          { s2 with buf := s2.buf ++
              [0x58000051, 0xd61f0220, int64lo absAddr, int64hi absAddr] }
        else
          let s2 : TState :=
            if (s0.out + 8).emod 8 = 0 then
              { s0 with buf := s0.buf ++ [A64_NOP],
                        ctx := s0.ctx.setCurrent curIdx (s0.out + 4) }
            else s0
          { s2 with buf := s2.buf ++
              [0x58000071, 0x1000009e, 0xd61f0220, int64lo absAddr, int64hi absAddr] }
      else
        if s.ctx.isInFixingRange absAddr then
          let refIdx := s.ctx.getRefInsIndex absAddr
          if refIdx ≤ curIdx then
            { s0 with buf := s0.buf ++
                [opc ||| lowBits (asr ((s0.ctx.dat refIdx).ins - s0.out) 2) 26] }
          else
            { s0 with ctx := s0.ctx.insertFixMap refIdx s0.out 0 0x03ffffff,
                      buf := s0.buf ++ [opc ||| lowBits 0 26] }
        else
          { s0 with buf := s0.buf ++ [opc ||| lowBits off 26] }
    some (finishFix curIdx s1)
  else none

/-- Recognition step of `__fix_cond_comp_test_branch`, returning the
low-field mask `lmask` of the matched class (`B.cond` and `CBZ/CBNZ`:
`0xff00001f`; `TBZ/TBNZ`: `0xfff8001f`). -/
def condLmask (ins : Nat) : Option Nat :=
  if ins &&& 0xff000010 = 0x54000000 then some 0xff00001f
  else if ins &&& 0x7f000000 = 0x34000000 ∨ ins &&& 0x7f000000 = 0x35000000 then
    some 0xff00001f
  else if ins &&& 0x7f000000 = 0x36000000 ∨ ins &&& 0x7f000000 = 0x37000000 then
    some 0xfff8001f
  else none

/-- `__fix_cond_comp_test_branch`: rewrite `B.cond`, `CBZ`/`CBNZ`,
`TBZ`/`TBNZ`. -/
def fixCond (mem : Int → Nat) (s : TState) : Option TState :=
  let ins := fetch mem s.inp
  match condLmask ins with
  | none => none
  | some lmask =>
    let notL := 0xffffffff ^^^ lmask
    let msb := clz32 notL
    let curIdx := s.ctx.getRefInsIndex s.inp
    let absAddr := s.inp + asr (toInt32 (((ins &&& notL) <<< msb : Nat) : Int)) (3 + msb)
    let off := asr (absAddr - s.out) 2
    let s0 : TState := { s with ctx := s.ctx.setCurrent curIdx s.out }
    let s1 : TState :=
      if ¬ s.ctx.isInFixingRange absAddr ∧ notL >>> 6 ≤ off.natAbs then
        let s2 : TState :=
          if ¬ (s0.out + 16).emod 8 = 0 then
            { s0 with buf := s0.buf ++ [A64_NOP],
                      ctx := s0.ctx.setCurrent curIdx (s0.out + 4) }
          else s0
        { s2 with buf := s2.buf ++
            [((8 >>> 2) <<< 5) &&& notL ||| (ins &&& lmask), 0x14000005,
             0x58000051, 0xd61f0220, int64lo absAddr, int64hi absAddr] }
      else
        if s.ctx.isInFixingRange absAddr then
          let refIdx := s.ctx.getRefInsIndex absAddr
          if refIdx ≤ curIdx then
            { s0 with buf := s0.buf ++
                [lowBits (asr ((s0.ctx.dat refIdx).ins - s0.out) 2 * 2 ^ 5) 32 &&& notL |||
                  (ins &&& lmask)] }
          else
            { s0 with ctx := s0.ctx.insertFixMap refIdx s0.out 5 notL,
                      buf := s0.buf ++ [lowBits 0 32 &&& notL ||| (ins &&& lmask)] }
        else
          { s0 with buf := s0.buf ++
              [lowBits (off * 2 ^ 5) 32 &&& notL ||| (ins &&& lmask)] }
    some (finishFix curIdx s1)

/-- Operand-class selection of `__fix_loadlit`: the recognition mask and
the alignment mask `faligned` (3, 7 or 15) of a literal load, or `none`
if the word is not a literal load (PRFM is handled separately). -/
def litSel (ins : Nat) : Option (Nat × Nat) :=
  let fal0 : Nat := if ins &&& 0x40000000 ≠ 0 then 7 else 3
  if ins &&& 0xbf000000 = 0x18000000 then some (0xbf000000, fal0)
  else
    let fal1 : Nat := if fal0 ≠ 7 then (if ins &&& 0x80000000 ≠ 0 then 15 else 3) else fal0
    if ins &&& 0x3f000000 = 0x1c000000 then some (0x3f000000, fal1)
    else if ins &&& 0xff000000 = 0x98000000 then some (0xff000000, 7)
    else none

/-- Iterations of the first alignment loop of `__fix_loadlit` (insert NOPs
until `(out + 8) & faligned == 0`): the least `k` with
`(pos + 4 * k) % a = 0`, for `a = faligned + 1` and a word-aligned `pos`. -/
def padCount (pos : Int) (a : Int) : Nat :=
  (((a - pos.emod a).emod a).tdiv 4).toNat

/-- The `ns` literal data words `memcpy` copies from the load's target
address into the trampoline. -/
def litData (mem : Int → Nat) (a : Int) (ns : Nat) : List Nat :=
  (List.range ns).map fun (k : Nat) => fetch mem (a + 4 * (k : Int))

/-- `__fix_loadlit`: discard `PRFM literal`, rewrite the PC-relative
`LDR`/`LDRSW` literal loads (inlining the literal datum when the target is
inside the window or the displacement or alignment cannot be re-encoded). -/
def fixLoadlit (mem : Int → Nat) (s : TState) : Option TState :=
  let ins := fetch mem s.inp
  if ins &&& 0xff000000 = 0xd8000000 then
    let curIdx := s.ctx.getRefInsIndex s.inp
    some (finishFix curIdx { s with ctx := s.ctx.setCurrent curIdx s.out })
  else
    match litSel ins with
    | none => none
    | some (mask, faligned) =>
      let curIdx := s.ctx.getRefInsIndex s.inp
      let absAddr := s.inp +
        ((lowBits (asr (toInt32 ((ins <<< 8 : Nat) : Int)) 11) 32 &&& 0xfffffffc : Nat) : Int)
      let off := asr (absAddr - s.out) 2
      let s0 : TState := { s with ctx := s.ctx.setCurrent curIdx s.out }
      let s1 : TState :=
        if s.ctx.isInFixingRange absAddr ∨
            0x00ffffe0 >>> 6 ≤ off.natAbs + (faligned + 1 - 4) / 4 then
          let padk := padCount (s0.out + 8) ((faligned : Int) + 1)
          let sA : TState := { s0 with buf := s0.buf ++ List.replicate padk A64_NOP }
          let sB : TState := { sA with ctx := sA.ctx.setCurrent curIdx sA.out }
          let ns := (faligned + 1) / 4
          { sB with buf := sB.buf ++
              (((8 >>> 2) <<< 5) &&& (0xffffffff ^^^ mask) ||| (ins &&& 0xff00001f)) ::
              (0x14000001 + ns) :: litData mem absAddr ns }
        else
          let fal2 : Nat := faligned >>> 2
          let pad2 := (off.emod ((fal2 : Int) + 1)).toNat
          let off2 := off - pad2
          let sA : TState := { s0 with buf := s0.buf ++ List.replicate pad2 A64_NOP }
          let sB : TState := { sA with ctx := sA.ctx.setCurrent curIdx sA.out }
          { sB with buf := sB.buf ++
              [lowBits (off2 * 2 ^ 5) 32 &&& (0xffffffff ^^^ mask) ||| (ins &&& 0xff00001f)] }
      some (finishFix curIdx s1)

/-- `__fix_pcreladdr`: rewrite `ADR` and `ADRP`. -/
def fixPcreladdr (mem : Int → Nat) (s : TState) : Option TState :=
  let ins := fetch mem s.inp
  if ins &&& 0x9f000000 = 0x10000000 then
    let curIdx := s.ctx.getRefInsIndex s.inp
    let lsbBytes : Nat := ((ins <<< 1) % 2 ^ 32) >>> 30
    let absAddr := s.inp +
      ((lowBits (asr (toInt32 ((ins <<< 8 : Nat) : Int)) 11) 32 &&& 0xfffffffc ||| lsbBytes : Nat) : Int)
    let off := absAddr - s.out
    let s0 : TState := { s with ctx := s.ctx.setCurrent curIdx s.out }
    let s1 : TState :=
      if ¬ s.ctx.isInFixingRange absAddr ∧ 0x001fffff >>> 1 ≤ off.natAbs then
        let s2 : TState :=
          if ¬ (s0.out + 8).emod 8 = 0 then
            { s0 with buf := s0.buf ++ [A64_NOP],
                      ctx := s0.ctx.setCurrent curIdx (s0.out + 4) }
          else s0
        { s2 with buf := s2.buf ++
            [0x58000000 ||| ((8 >>> 2) <<< 5) &&& (0xffffffff ^^^ 0x9f000000) ||| (ins &&& 0x0000001f),
             0x14000003, int64lo absAddr, int64hi absAddr] }
      else
        if s.ctx.isInFixingRange absAddr then
          let refIdx := s.ctx.getRefInsIndex (absAddr - absAddr.emod 4)
          if refIdx ≤ curIdx then
            { s0 with buf := s0.buf ++
                [lowBits (((s0.ctx.dat refIdx).ins - s0.out) * 2 ^ 3) 32 &&& 0x00ffffff |||
                  (ins &&& 0xff00001f)] }
          else
            { s0 with ctx := s0.ctx.insertFixMap refIdx s0.out 5 0x00ffffff,
                      buf := s0.buf ++ [lowBits 0 32 &&& 0x00ffffff ||| (ins &&& 0xff00001f)] }
        else
          { s0 with buf := s0.buf ++
              [lowBits (off * 2 ^ 3) 32 &&& 0x00ffffff ||| (ins &&& 0xff00001f)] }
    some (finishFix curIdx s1)
  else if ins &&& 0x9f000000 = 0x90000000 then
    let curIdx := s.ctx.getRefInsIndex s.inp
    let lsbBytes : Nat := ((ins <<< 1) % 2 ^ 32) >>> 30
    let absAddr := (s.inp - s.inp.emod 0x1000) +
      (((lowBits (asr (toInt32 ((ins <<< 8 : Nat) : Int)) 11) 32 &&& 0xfffffffc ||| lsbBytes) <<< 12) % 2 ^ 32 : Nat)
    let s0 : TState := { s with ctx := s.ctx.setCurrent curIdx s.out }
    let s1 : TState :=
      if s.ctx.isInFixingRange absAddr then
        { s0 with buf := s0.buf ++ [ins] }
      else
        let s2 : TState :=
          if ¬ (s0.out + 8).emod 8 = 0 then
            { s0 with buf := s0.buf ++ [A64_NOP],
                      ctx := s0.ctx.setCurrent curIdx (s0.out + 4) }
          else s0
        { s2 with buf := s2.buf ++
            [0x58000000 ||| ((8 >>> 2) <<< 5) &&& (0xffffffff ^^^ 0x9f000000) ||| (ins &&& 0x0000001f),
             0x14000003, int64lo absAddr, int64hi absAddr] }
    some (finishFix curIdx s1)
  else none

/-- One iteration of the driver loop of `__fix_instructions`: dispatch to
the four rewriters in order, else copy the word verbatim (after recording
its position and draining its fix-ups). -/
def stepFix (mem : Int → Nat) (s : TState) : TState :=
  match fixBranchImm mem s with
  | some s' => s'
  | none =>
    match fixCond mem s with
    | some s' => s'
    | none =>
      match fixLoadlit mem s with
      | some s' => s'
      | none =>
        match fixPcreladdr mem s with
        | some s' => s'
        | none =>
          let curIdx := s.ctx.getRefInsIndex s.inp
          let pr := processFixMap s.outBase s.buf (s.ctx.setCurrent curIdx s.out) curIdx
          { inp := s.inp + 4, outBase := s.outBase,
            buf := pr.1 ++ [fetch mem s.inp], ctx := pr.2 }

/-- The driver loop of `__fix_instructions`, `n` iterations. -/
def runWindow (mem : Int → Nat) : Nat → TState → TState
  | 0, s => s
  | n + 1, s => runWindow mem n (stepFix mem s)

/-- The tail jump `__fix_instructions` appends after the window: a single
`B` when the callback is within range, else an 8-aligned `LDR X17 /
BR X17 / <callback>` sequence. -/
def addTail (s : TState) : TState :=
  let callback := s.inp
  let off := asr (callback - s.out) 2
  if 0x01ffffff ≤ off.natAbs then
    let s1 : TState :=
      if ¬ (s.out + 8).emod 8 = 0 then { s with buf := s.buf ++ [A64_NOP] } else s
    { s1 with buf := s1.buf ++
        [0x58000051, 0xd61f0220, int64lo callback, int64hi callback] }
  else
    { s with buf := s.buf ++ [0x14000000 ||| lowBits off 26] }

/-- `__fix_instructions`: relocate the `count`-word window at `inp0` into
the buffer at `outBase` and append the tail jump. -/
def fixInstructions (mem : Int → Nat) (inp0 : Int) (count : Nat) (outBase : Int) : TState :=
  addTail (runWindow mem count
    { inp := inp0, outBase := outBase, buf := [],
      ctx := { basep := inp0, endp := inp0 + 4 * count, dat := fun _ => ⟨0, []⟩ } })

/-- Observable outcome of `A64HookFunctionV`: the returned pointer (`none`
models a NULL return), the words written into the caller's trampoline
buffer (`none` if the buffer was never written), and the prologue words
written at the hooked function (`none` if its code was left unchanged). -/
structure HookResult where
  ret : Option Int
  trampBuf : Option (List Nat)
  origWords : Option (List Nat)

/-- `A64HookFunctionV`: the hook installer.  `mprotectOk` is the outcome
of the `__make_rwx` call on the target function (an external collaborator
modelled as an oracle). -/
def A64HookFunctionV (mem : Int → Nat) (symbol replace : Int)
    (rwx : Option Int) (rwxSize : Nat) (mprotectOk : Bool) : HookResult :=
  let pcOffset := asr (replace - symbol) 2
  if 0x01ffffff ≤ pcOffset.natAbs then
    let count : Nat := if ¬ (symbol + 8).emod 8 = 0 then 5 else 4
    let prologue : List Nat :=
      (if count = 5 then [A64_NOP] else []) ++
        [0x58000051, 0xd61f0220, int64lo replace, int64hi replace]
    match rwx with
    | some tr =>
      if rwxSize < count * 10 then ⟨none, none, none⟩
      else
        let fixed := (fixInstructions mem symbol count tr).buf
        if mprotectOk then ⟨some tr, some fixed, some prologue⟩
        else ⟨none, some fixed, none⟩
    | none =>
      if mprotectOk then ⟨none, none, some prologue⟩ else ⟨none, none, none⟩
  else
    let patch : List Nat := [0x14000000 ||| lowBits pcOffset 26]
    match rwx with
    | some tr =>
      if rwxSize < 1 * 10 then ⟨none, none, none⟩
      else
        let fixed := (fixInstructions mem symbol 1 tr).buf
        if mprotectOk then ⟨some tr, some fixed, some patch⟩
        else ⟨none, some fixed, none⟩
    | none =>
      if mprotectOk then ⟨none, none, some patch⟩ else ⟨none, none, none⟩

end And64

namespace And64

/-! ### Basic lemmas about the fix-up context operations -/

theorem setCurrent_basep (c : Ctx) (i o : Int) : (c.setCurrent i o).basep = c.basep := rfl

theorem setCurrent_endp (c : Ctx) (i o : Int) : (c.setCurrent i o).endp = c.endp := rfl

theorem setCurrent_fmap (c : Ctx) (i o j : Int) :
    ((c.setCurrent i o).dat j).fmap = (c.dat j).fmap := by
  unfold Ctx.setCurrent
  by_cases h : j = i <;> simp [h]

theorem insertFixMap_basep (c : Ctx) (i bp : Int) (ls ad : Nat) :
    (c.insertFixMap i bp ls ad).basep = c.basep := rfl

theorem insertFixMap_endp (c : Ctx) (i bp : Int) (ls ad : Nat) :
    (c.insertFixMap i bp ls ad).endp = c.endp := rfl

theorem insertFixMap_fmap_ne (c : Ctx) (i bp : Int) (ls ad : Nat) (j : Int) (h : j ≠ i) :
    ((c.insertFixMap i bp ls ad).dat j).fmap = (c.dat j).fmap := by
  unfold Ctx.insertFixMap
  simp [h]

theorem applyFix_length (outBase d : Int) (buf : List Nat) (f : FixInfo) :
    (applyFix outBase d buf f).length = buf.length := by
  unfold applyFix
  simp

theorem foldl_applyFix_length (outBase d : Int) (l : List FixInfo) (buf : List Nat) :
    (l.foldl (applyFix outBase d) buf).length = buf.length := by
  induction l generalizing buf with
  | nil => rfl
  | cons f l ih => simp [List.foldl_cons, ih, applyFix_length]

theorem processFixMap_fst_length (outBase : Int) (buf : List Nat) (c : Ctx) (i : Int) :
    (processFixMap outBase buf c i).1.length = buf.length := by
  unfold processFixMap
  simp [foldl_applyFix_length]

theorem processFixMap_fst_of_empty (outBase : Int) (buf : List Nat) (c : Ctx) (i : Int)
    (h : (c.dat i).fmap = []) : (processFixMap outBase buf c i).1 = buf := by
  unfold processFixMap
  simp [h]

theorem processFixMap_snd_basep (outBase : Int) (buf : List Nat) (c : Ctx) (i : Int) :
    (processFixMap outBase buf c i).2.basep = c.basep := rfl

theorem processFixMap_snd_endp (outBase : Int) (buf : List Nat) (c : Ctx) (i : Int) :
    (processFixMap outBase buf c i).2.endp = c.endp := rfl

theorem processFixMap_snd_fmap (outBase : Int) (buf : List Nat) (c : Ctx) (i j : Int) :
    (((processFixMap outBase buf c i).2).dat j).fmap =
      if j = i then [] else (c.dat j).fmap := by
  unfold processFixMap
  by_cases h : j = i <;> simp [h]

theorem processFixMap_snd_ins (outBase : Int) (buf : List Nat) (c : Ctx) (i j : Int) :
    (((processFixMap outBase buf c i).2).dat j).ins = (c.dat j).ins := by
  unfold processFixMap
  by_cases h : j = i <;> simp [h]

theorem finishFix_inp (i : Int) (t : TState) : (finishFix i t).inp = t.inp + 4 := rfl

theorem finishFix_outBase (i : Int) (t : TState) : (finishFix i t).outBase = t.outBase := rfl

theorem finishFix_buf_length (i : Int) (t : TState) :
    (finishFix i t).buf.length = t.buf.length := by
  unfold finishFix
  simp [processFixMap_fst_length]

theorem finishFix_buf_of_empty (i : Int) (t : TState) (h : (t.ctx.dat i).fmap = []) :
    (finishFix i t).buf = t.buf := by
  unfold finishFix
  simp [processFixMap_fst_of_empty _ _ _ _ h]

theorem finishFix_basep (i : Int) (t : TState) : (finishFix i t).ctx.basep = t.ctx.basep := rfl

theorem finishFix_endp (i : Int) (t : TState) : (finishFix i t).ctx.endp = t.ctx.endp := rfl

theorem finishFix_fmap (i : Int) (t : TState) (j : Int) :
    ((finishFix i t).ctx.dat j).fmap = if j = i then [] else (t.ctx.dat j).fmap := by
  unfold finishFix
  simp [processFixMap_snd_fmap]

theorem finishFix_ins (i : Int) (t : TState) (j : Int) :
    ((finishFix i t).ctx.dat j).ins = (t.ctx.dat j).ins := by
  unfold finishFix
  simp [processFixMap_snd_ins]

/-! ### Index-arithmetic lemmas -/

theorem refIdx_bound {b e a : Int} (h1 : b ≤ a) (h2 : a < e) :
    0 ≤ (a - b).tdiv 4 ∧ b + 4 * (a - b).tdiv 4 < e := by
  have hy : (0 : Int) ≤ a - b := by omega
  rw [Int.tdiv_eq_ediv hy (by norm_num)]
  omega

theorem refIdx_bound_aligned {b e a : Int} (h1 : b ≤ a) (h2 : a < e) :
    0 ≤ (a - a.emod 4 - b).tdiv 4 ∧ b + 4 * (a - a.emod 4 - b).tdiv 4 < e := by
  have hm0 : (0 : Int) ≤ a.emod 4 := Int.emod_nonneg a (by norm_num)
  have hm1 : a.emod 4 < 4 := Int.emod_lt_of_pos a (by norm_num)
  by_cases hy : (0 : Int) ≤ a - a.emod 4 - b
  · rw [Int.tdiv_eq_ediv hy (by norm_num)]
    omega
  · have h3 : a - a.emod 4 - b = -1 ∨ a - a.emod 4 - b = -2 ∨ a - a.emod 4 - b = -3 := by
      omega
    rcases h3 with h3 | h3 | h3 <;> rw [h3] <;>
      simp only [(by decide : ((-1 : Int).tdiv 4) = 0), (by decide : ((-2 : Int).tdiv 4) = 0),
        (by decide : ((-3 : Int).tdiv 4) = 0)] <;> omega

theorem curIdx_eq (c : Ctx) (m : Nat) (a : Int) (h : a = c.basep + 4 * m) :
    c.getRefInsIndex a = m := by
  unfold Ctx.getRefInsIndex
  rw [h]
  have : c.basep + 4 * (m : Int) - c.basep = 4 * m := by ring
  rw [this, Int.mul_tdiv_cancel_left _ (by norm_num)]

end And64

namespace And64

theorem isInFixingRange_elim {c : Ctx} {a : Int} (h : c.isInFixingRange a) :
    c.basep ≤ a ∧ a < c.endp := h

theorem getRefIdx_bound (c : Ctx) {a : Int} (h1 : c.basep ≤ a) (h2 : a < c.endp) :
    0 ≤ c.getRefInsIndex a ∧ c.basep + 4 * c.getRefInsIndex a < c.endp :=
  refIdx_bound h1 h2

theorem getRefIdx_bound_aligned (c : Ctx) {a : Int} (h1 : c.basep ≤ a) (h2 : a < c.endp) :
    0 ≤ c.getRefInsIndex (a - a.emod 4) ∧
      c.basep + 4 * c.getRefInsIndex (a - a.emod 4) < c.endp :=
  refIdx_bound_aligned h1 h2

/-- Shape of the fix-up map across one rewriter call: every list is either
left unchanged (and the current instruction's list is drained), or it
belongs to a strictly later in-window instruction (a forward reference). -/
def fmapStep (s s' : TState) : Prop :=
  ∀ j : Int,
    (s'.ctx.dat j).fmap =
      (if j = s.ctx.getRefInsIndex s.inp then [] else (s.ctx.dat j).fmap) ∨
    (s.ctx.getRefInsIndex s.inp < j ∧ 0 ≤ j ∧ s.ctx.basep + 4 * j < s.ctx.endp)

theorem fixBranchImm_spec {mem : Int → Nat} {s s' : TState}
    (h : fixBranchImm mem s = some s') :
    s'.inp = s.inp + 4 ∧ s'.outBase = s.outBase ∧
    s'.ctx.basep = s.ctx.basep ∧ s'.ctx.endp = s.ctx.endp ∧
    s.buf.length ≤ s'.buf.length ∧ s'.buf.length ≤ s.buf.length + 6 ∧
    fmapStep s s' := by
  simp only [fixBranchImm] at h
  split at h
  case isFalse => exact Option.noConfusion h
  case isTrue hrec =>
    have h' := Option.some.inj h
    subst h'
    refine ⟨?_, ?_, ?_, ?_, ?_, ?_, ?_⟩
    · rw [finishFix_inp]
      repeat' split
      all_goals rfl
    · rw [finishFix_outBase]
      repeat' split
      all_goals rfl
    · rw [finishFix_basep]
      repeat' split
      all_goals simp [setCurrent_basep, insertFixMap_basep]
    · rw [finishFix_endp]
      repeat' split
      all_goals simp [setCurrent_endp, insertFixMap_endp]
    · rw [finishFix_buf_length]
      repeat' split
      all_goals first | omega | (simp <;> omega)
    · rw [finishFix_buf_length]
      repeat' split
      all_goals first | omega | (simp <;> omega)
    · intro j
      rw [finishFix_fmap]
      by_cases hj0 : j = s.ctx.getRefInsIndex s.inp
      · rw [if_pos hj0]
        rw [if_pos hj0]
        exact Or.inl rfl
      · rw [if_neg hj0]
        rw [if_neg hj0]
        split
        next hover =>
          split <;> split <;> left <;> simp [setCurrent_fmap]
        next hover =>
          split
          next hspec =>
            split
            next hle =>
              left
              simp [setCurrent_fmap]
            next hgt =>
              by_cases hj : j = s.ctx.getRefInsIndex (s.inp + asr (toInt32 ((fetch mem s.inp <<< 6 : Nat) : Int)) 4)
              · right
                obtain ⟨hb1, hb2⟩ := getRefIdx_bound s.ctx (isInFixingRange_elim hspec).1 (isInFixingRange_elim hspec).2
                subst hj
                exact ⟨by omega, hb1, hb2⟩
              · left
                simp [insertFixMap_fmap_ne _ _ _ _ _ _ hj, setCurrent_fmap]
          next hspec =>
            left
            simp [setCurrent_fmap]

end And64

namespace And64

theorem fixCond_spec {mem : Int → Nat} {s s' : TState}
    (h : fixCond mem s = some s') :
    s'.inp = s.inp + 4 ∧ s'.outBase = s.outBase ∧
    s'.ctx.basep = s.ctx.basep ∧ s'.ctx.endp = s.ctx.endp ∧
    s.buf.length ≤ s'.buf.length ∧ s'.buf.length ≤ s.buf.length + 7 ∧
    fmapStep s s' := by
  simp only [fixCond] at h
  split at h
  next => exact Option.noConfusion h
  next lmask heq =>
    have h' := Option.some.inj h
    subst h'
    refine ⟨?_, ?_, ?_, ?_, ?_, ?_, ?_⟩
    · rw [finishFix_inp]
      repeat' split
      all_goals rfl
    · rw [finishFix_outBase]
      repeat' split
      all_goals rfl
    · rw [finishFix_basep]
      repeat' split
      all_goals simp [setCurrent_basep, insertFixMap_basep]
    · rw [finishFix_endp]
      repeat' split
      all_goals simp [setCurrent_endp, insertFixMap_endp]
    · rw [finishFix_buf_length]
      repeat' split
      all_goals first | omega | (simp <;> omega)
    · rw [finishFix_buf_length]
      repeat' split
      all_goals first | omega | (simp <;> omega)
    · intro j
      rw [finishFix_fmap]
      by_cases hj0 : j = s.ctx.getRefInsIndex s.inp
      · rw [if_pos hj0]
        rw [if_pos hj0]
        exact Or.inl rfl
      · rw [if_neg hj0]
        rw [if_neg hj0]
        split
        next hover =>
          split <;> left <;> simp [setCurrent_fmap]
        next hover =>
          split
          next hspec =>
            split
            next hle =>
              left
              simp [setCurrent_fmap]
            next hgt =>
              by_cases hj : j = s.ctx.getRefInsIndex (s.inp +
                asr (toInt32 (((fetch mem s.inp &&& (0xffffffff ^^^ lmask)) <<<
                  clz32 (0xffffffff ^^^ lmask) : Nat) : Int)) (3 + clz32 (0xffffffff ^^^ lmask)))
              · right
                obtain ⟨hb1, hb2⟩ := getRefIdx_bound s.ctx (isInFixingRange_elim hspec).1
                  (isInFixingRange_elim hspec).2
                subst hj
                exact ⟨by omega, hb1, hb2⟩
              · left
                simp [insertFixMap_fmap_ne _ _ _ _ _ _ hj, setCurrent_fmap]
          next hspec =>
            left
            simp [setCurrent_fmap]

theorem litData_length (mem : Int → Nat) (a : Int) (ns : Nat) :
    (litData mem a ns).length = ns := by
  unfold litData
  rw [List.length_map, List.length_range]

theorem litSel_faligned {ins : Nat} {m f : Nat} (h : litSel ins = some (m, f)) :
    f = 3 ∨ f = 7 ∨ f = 15 := by
  unfold litSel at h
  repeat' split at h
  all_goals first
    | exact Option.noConfusion h
    | (simp only [Option.some.injEq, Prod.mk.injEq] at h
       obtain ⟨h1, h2⟩ := h
       subst h2
       simp)

theorem padCount_le {pos a : Int} (h1 : 0 < a) (h2 : a ≤ 16) : padCount pos a ≤ 3 := by
  unfold padCount
  have hm0 : (0 : Int) ≤ pos.emod a := Int.emod_nonneg pos (by omega)
  have hm1 : pos.emod a < a := Int.emod_lt_of_pos pos h1
  have hr0 : (0 : Int) ≤ (a - pos.emod a).emod a := Int.emod_nonneg _ (by omega)
  have hr1 : (a - pos.emod a).emod a < a := Int.emod_lt_of_pos _ h1
  rw [Int.tdiv_eq_ediv hr0 (by norm_num)]
  omega

theorem emod_toNat_le (off : Int) (k : Nat) : (off.emod ((k : Int) + 1)).toNat ≤ k := by
  have hm0 : (0 : Int) ≤ off.emod ((k : Int) + 1) := Int.emod_nonneg off (by omega)
  have hm1 : off.emod ((k : Int) + 1) < (k : Int) + 1 :=
    Int.emod_lt_of_pos off (by omega)
  omega

theorem fixLoadlit_spec {mem : Int → Nat} {s s' : TState}
    (h : fixLoadlit mem s = some s') :
    s'.inp = s.inp + 4 ∧ s'.outBase = s.outBase ∧
    s'.ctx.basep = s.ctx.basep ∧ s'.ctx.endp = s.ctx.endp ∧
    s.buf.length ≤ s'.buf.length ∧ s'.buf.length ≤ s.buf.length + 9 ∧
    fmapStep s s' := by
  simp only [fixLoadlit] at h
  split at h
  next hprfm =>
    have h' := Option.some.inj h
    subst h'
    refine ⟨rfl, rfl, rfl, rfl, ?_, ?_, ?_⟩
    · rw [finishFix_buf_length]
    · rw [finishFix_buf_length]
      exact Nat.le_add_right _ 9
    · intro j
      rw [finishFix_fmap]
      by_cases hj0 : j = s.ctx.getRefInsIndex s.inp
      · rw [if_pos hj0]
        rw [if_pos hj0]
        exact Or.inl rfl
      · rw [if_neg hj0]
        rw [if_neg hj0]
        left
        simp [setCurrent_fmap]
  next hprfm =>
    split at h
    next => exact Option.noConfusion h
    next mask fal hsel =>
      have h' := Option.some.inj h
      subst h'
      have hfal : fal = 3 ∨ fal = 7 ∨ fal = 15 := litSel_faligned hsel
      refine ⟨?_, ?_, ?_, ?_, ?_, ?_, ?_⟩
      · rw [finishFix_inp]
        repeat' split
        all_goals rfl
      · rw [finishFix_outBase]
        repeat' split
        all_goals rfl
      · rw [finishFix_basep]
        repeat' split
        all_goals simp [setCurrent_basep]
      · rw [finishFix_endp]
        repeat' split
        all_goals simp [setCurrent_endp]
      · rw [finishFix_buf_length]
        split
        all_goals simp
      · rw [finishFix_buf_length]
        have hpad : padCount ({ s with
            ctx := s.ctx.setCurrent (s.ctx.getRefInsIndex s.inp) s.out : TState }.out + 8)
            ((fal : Int) + 1) ≤ 3 :=
          padCount_le (by omega) (by omega)
        split
        · simp only [List.length_append, List.length_replicate, List.length_cons,
            litData_length]
          have hns : (fal + 1) / 4 ≤ 4 := by omega
          omega
        · have hp2 := emod_toNat_le (asr (s.inp +
            ((lowBits (asr (toInt32 ((fetch mem s.inp <<< 8 : Nat) : Int)) 11) 32 &&&
              0xfffffffc : Nat) : Int) - s.out) 2) (fal >>> 2)
          simp only [List.length_append, List.length_replicate, List.length_cons,
            List.length_nil]
          have hsh : fal >>> 2 ≤ 3 := by rcases hfal with h | h | h <;> subst h <;> decide
          omega
      · intro j
        rw [finishFix_fmap]
        by_cases hj0 : j = s.ctx.getRefInsIndex s.inp
        · rw [if_pos hj0]
          rw [if_pos hj0]
          exact Or.inl rfl
        · rw [if_neg hj0]
          rw [if_neg hj0]
          split <;> left <;> simp [setCurrent_fmap]

theorem fixPcreladdr_spec {mem : Int → Nat} {s s' : TState}
    (h : fixPcreladdr mem s = some s') :
    s'.inp = s.inp + 4 ∧ s'.outBase = s.outBase ∧
    s'.ctx.basep = s.ctx.basep ∧ s'.ctx.endp = s.ctx.endp ∧
    s.buf.length ≤ s'.buf.length ∧ s'.buf.length ≤ s.buf.length + 5 ∧
    fmapStep s s' := by
  simp only [fixPcreladdr] at h
  split at h
  case isTrue hadr =>
    have h' := Option.some.inj h
    subst h'
    refine ⟨?_, ?_, ?_, ?_, ?_, ?_, ?_⟩
    · rw [finishFix_inp]
      repeat' split
      all_goals rfl
    · rw [finishFix_outBase]
      repeat' split
      all_goals rfl
    · rw [finishFix_basep]
      repeat' split
      all_goals simp [setCurrent_basep, insertFixMap_basep]
    · rw [finishFix_endp]
      repeat' split
      all_goals simp [setCurrent_endp, insertFixMap_endp]
    · rw [finishFix_buf_length]
      repeat' split
      all_goals first | omega | (simp <;> omega)
    · rw [finishFix_buf_length]
      repeat' split
      all_goals first | omega | (simp <;> omega)
    · intro j
      rw [finishFix_fmap]
      by_cases hj0 : j = s.ctx.getRefInsIndex s.inp
      · rw [if_pos hj0]
        rw [if_pos hj0]
        exact Or.inl rfl
      · rw [if_neg hj0]
        rw [if_neg hj0]
        split
        next hover =>
          split <;> left <;> simp [setCurrent_fmap]
        next hover =>
          split
          next hspec =>
            split
            next hle =>
              left
              simp [setCurrent_fmap]
            next hgt =>
              by_cases hj : j = s.ctx.getRefInsIndex
                ((s.inp + ((lowBits (asr (toInt32 ((fetch mem s.inp <<< 8 : Nat) : Int)) 11) 32 &&&
                  0xfffffffc ||| ((fetch mem s.inp <<< 1) % 2 ^ 32) >>> 30 : Nat) : Int)) -
                 (s.inp + ((lowBits (asr (toInt32 ((fetch mem s.inp <<< 8 : Nat) : Int)) 11) 32 &&&
                  0xfffffffc ||| ((fetch mem s.inp <<< 1) % 2 ^ 32) >>> 30 : Nat) : Int)).emod 4)
              · right
                obtain ⟨hb1, hb2⟩ := getRefIdx_bound_aligned s.ctx
                  (isInFixingRange_elim hspec).1 (isInFixingRange_elim hspec).2
                subst hj
                exact ⟨by omega, hb1, hb2⟩
              · left
                rw [insertFixMap_fmap_ne _ _ _ _ _ _ hj, setCurrent_fmap]
          next hspec =>
            left
            simp [setCurrent_fmap]
  case isFalse hadr =>
    split at h
    case isFalse => exact Option.noConfusion h
    case isTrue hadrp =>
      have h' := Option.some.inj h
      subst h'
      refine ⟨?_, ?_, ?_, ?_, ?_, ?_, ?_⟩
      · rw [finishFix_inp]
        repeat' split
        all_goals rfl
      · rw [finishFix_outBase]
        repeat' split
        all_goals rfl
      · rw [finishFix_basep]
        repeat' split
        all_goals simp [setCurrent_basep]
      · rw [finishFix_endp]
        repeat' split
        all_goals simp [setCurrent_endp]
      · rw [finishFix_buf_length]
        repeat' split
        all_goals first | omega | (simp <;> omega)
      · rw [finishFix_buf_length]
        repeat' split
        all_goals first | omega | (simp <;> omega)
      · intro j
        rw [finishFix_fmap]
        by_cases hj0 : j = s.ctx.getRefInsIndex s.inp
        · rw [if_pos hj0]
          rw [if_pos hj0]
          exact Or.inl rfl
        · rw [if_neg hj0]
          rw [if_neg hj0]
          split
          · left
            simp [setCurrent_fmap]
          · split <;> left <;> simp [setCurrent_fmap]

end And64

namespace And64

theorem stepFix_spec (mem : Int → Nat) (s : TState) :
    (stepFix mem s).inp = s.inp + 4 ∧ (stepFix mem s).outBase = s.outBase ∧
    (stepFix mem s).ctx.basep = s.ctx.basep ∧ (stepFix mem s).ctx.endp = s.ctx.endp ∧
    s.buf.length ≤ (stepFix mem s).buf.length ∧
    (stepFix mem s).buf.length ≤ s.buf.length + 9 ∧
    fmapStep s (stepFix mem s) := by
  unfold stepFix
  split
  next s' heq =>
    obtain ⟨h1, h2, h3, h4, h5, h6, h7⟩ := fixBranchImm_spec heq
    exact ⟨h1, h2, h3, h4, h5, by omega, h7⟩
  next heqa =>
    split
    next s' heq =>
      obtain ⟨h1, h2, h3, h4, h5, h6, h7⟩ := fixCond_spec heq
      exact ⟨h1, h2, h3, h4, h5, by omega, h7⟩
    next heqb =>
      split
      next s' heq =>
        obtain ⟨h1, h2, h3, h4, h5, h6, h7⟩ := fixLoadlit_spec heq
        exact ⟨h1, h2, h3, h4, h5, by omega, h7⟩
      next heqc =>
        split
        next s' heq =>
          obtain ⟨h1, h2, h3, h4, h5, h6, h7⟩ := fixPcreladdr_spec heq
          exact ⟨h1, h2, h3, h4, h5, by omega, h7⟩
        next heqd =>
          refine ⟨rfl, rfl, ?_, ?_, ?_, ?_, ?_⟩
          · rw [processFixMap_snd_basep, setCurrent_basep]
          · rw [processFixMap_snd_endp, setCurrent_endp]
          · simp [processFixMap_fst_length]
          · simp [processFixMap_fst_length]
          · intro j
            left
            rw [processFixMap_snd_fmap, setCurrent_fmap]

theorem runWindow_scalars (mem : Int → Nat) :
    ∀ (n : Nat) (s : TState),
      (runWindow mem n s).outBase = s.outBase ∧
      (runWindow mem n s).ctx.basep = s.ctx.basep ∧
      (runWindow mem n s).ctx.endp = s.ctx.endp ∧
      (runWindow mem n s).inp = s.inp + 4 * n ∧
      s.buf.length ≤ (runWindow mem n s).buf.length ∧
      (runWindow mem n s).buf.length ≤ s.buf.length + 9 * n := by
  intro n
  induction n with
  | zero =>
    intro s
    have h0 : runWindow mem 0 s = s := rfl
    rw [h0]
    refine ⟨rfl, rfl, rfl, by push_cast; ring, le_rfl, by omega⟩
  | succ n ih =>
    intro s
    obtain ⟨g1, g2, g3, g4, g5, g6, _⟩ := stepFix_spec mem s
    obtain ⟨i1, i2, i3, i4, i5, i6⟩ := ih (stepFix mem s)
    have hrw : runWindow mem (n + 1) s = runWindow mem n (stepFix mem s) := rfl
    rw [hrw]
    refine ⟨by rw [i1, g2], by rw [i2, g3], by rw [i3, g4], ?_, by omega, by omega⟩
    rw [i4, g1]
    push_cast
    ring

theorem runWindow_fmap (mem : Int → Nat) :
    ∀ (n : Nat) (s : TState) (m : Nat),
      s.inp = s.ctx.basep + 4 * m →
      s.ctx.endp = s.ctx.basep + 4 * ((m : Int) + n) →
      (∀ j : Int, (j < (m : Int) ∨ (m : Int) + (n : Int) ≤ j) → (s.ctx.dat j).fmap = []) →
      ∀ j : Int, ((runWindow mem n s).ctx.dat j).fmap = [] := by
  intro n
  induction n with
  | zero =>
    intro s m hinp hend H j
    exact H j (by omega)
  | succ n ih =>
    intro s m hinp hend H j
    obtain ⟨g1, _, g3, g4, _, _, g7⟩ := stepFix_spec mem s
    have hrw : runWindow mem (n + 1) s = runWindow mem n (stepFix mem s) := rfl
    rw [hrw]
    refine ih (stepFix mem s) (m + 1) ?_ ?_ ?_ j
    · rw [g1, g3, hinp]
      push_cast
      ring
    · rw [g4, g3, hend]
      push_cast
      ring
    · intro j' hj'
      have hcur : s.ctx.getRefInsIndex s.inp = (m : Int) := curIdx_eq s.ctx m s.inp hinp
      rcases g7 j' with hval | ⟨hgt, hge0, hlt⟩
      · rw [hval]
        rw [hcur]
        by_cases hjm : j' = (m : Int)
        · rw [if_pos hjm]
        · rw [if_neg hjm]
          refine H j' ?_
          push_cast at hj' ⊢
          omega
      · exfalso
        rw [hcur] at hgt
        rw [hend] at hlt
        push_cast at hj' hlt ⊢
        omega

theorem addTail_ctx (s : TState) : (addTail s).ctx = s.ctx := by
  simp only [addTail]
  repeat' split
  all_goals rfl

theorem addTail_len (s : TState) :
    s.buf.length ≤ (addTail s).buf.length ∧ (addTail s).buf.length ≤ s.buf.length + 5 := by
  simp only [addTail]
  repeat' split
  all_goals constructor
  all_goals first | omega | (simp <;> omega)

/-- The relocator leaves every deferred fix-up list drained: key lemma for
the cross-reference-closure claim. -/
theorem fixInstructions_fmap (mem : Int → Nat) (inp0 : Int) (count : Nat) (outBase : Int)
    (j : Int) : ((fixInstructions mem inp0 count outBase).ctx.dat j).fmap = [] := by
  unfold fixInstructions
  rw [addTail_ctx]
  refine runWindow_fmap mem count _ 0 (by simp) (by push_cast; ring) ?_ j
  intro j' _
  rfl

theorem fixInstructions_len (mem : Int → Nat) (inp0 : Int) (count : Nat) (outBase : Int) :
    (fixInstructions mem inp0 count outBase).buf.length ≤ 9 * count + 5 := by
  unfold fixInstructions
  obtain ⟨ha1, ha2⟩ := addTail_len (runWindow mem count
    { inp := inp0, outBase := outBase, buf := [],
      ctx := { basep := inp0, endp := inp0 + 4 * count, dat := fun _ => ⟨0, []⟩ } })
  obtain ⟨_, _, _, _, _, hr6⟩ := runWindow_scalars mem count
    { inp := inp0, outBase := outBase, buf := [],
      ctx := { basep := inp0, endp := inp0 + 4 * count, dat := fun _ => ⟨0, []⟩ } }
  simp only [List.length_nil] at hr6
  omega

end And64

namespace And64

theorem setCurrent_ins_self (c : Ctx) (i o : Int) :
    ((c.setCurrent i o).dat i).ins = o := by
  unfold Ctx.setCurrent
  simp

theorem setCurrent_ins_ne (c : Ctx) (i o j : Int) (h : j ≠ i) :
    ((c.setCurrent i o).dat j).ins = (c.dat j).ins := by
  unfold Ctx.setCurrent
  simp [h]

theorem c5_branch_in_range (mem : Int → Nat) (s : TState)
    (h1 : fetch mem s.inp &&& 0xfc000000 = 0x14000000 ∨
      fetch mem s.inp &&& 0xfc000000 = 0x94000000)
    (h2 : ¬ s.ctx.isInFixingRange
      (s.inp + asr (toInt32 ((fetch mem s.inp <<< 6 : Nat) : Int)) 4))
    (h3 : (asr (s.inp + asr (toInt32 ((fetch mem s.inp <<< 6 : Nat) : Int)) 4 - s.out) 2).natAbs
      < 0x01ffffff)
    (h4 : (s.ctx.dat (s.ctx.getRefInsIndex s.inp)).fmap = []) :
    (fixBranchImm mem s).map (fun t => t.buf) =
      some (s.buf ++ [fetch mem s.inp &&& 0xfc000000 |||
        lowBits (asr (s.inp + asr (toInt32 ((fetch mem s.inp <<< 6 : Nat) : Int)) 4 - s.out) 2) 26]) := by
  have hno : ¬ (¬ s.ctx.isInFixingRange
      (s.inp + asr (toInt32 ((fetch mem s.inp <<< 6 : Nat) : Int)) 4) ∧
      0x01ffffff ≤ (asr (s.inp + asr (toInt32 ((fetch mem s.inp <<< 6 : Nat) : Int)) 4 -
        s.out) 2).natAbs) := fun hc => absurd hc.2 (by omega)
  simp only [fixBranchImm]
  rw [if_pos h1, if_neg hno, if_neg h2, Option.map_some']
  congr 1
  rw [finishFix_buf_of_empty]
  show ((s.ctx.setCurrent (s.ctx.getRefInsIndex s.inp) s.out).dat
    (s.ctx.getRefInsIndex s.inp)).fmap = []
  rw [setCurrent_fmap]
  exact h4


/-- C6: for every `BL` whose target is outside the window and whose new
displacement overflows the 26-bit immediate, the rewriter emits the
5-word sequence `LDR X17, #12; ADR X30, #16; BR X17; <8-byte target>`,
prepending exactly one NOP (and updating the recorded output address)
iff `out + 3` words is not 8-byte aligned, so the 8-byte literal always
lands 8-aligned. -/
theorem c6_bl_long_form (mem : Int → Nat) (s : TState)
    (h1 : fetch mem s.inp &&& 0xfc000000 = 0x94000000)
    (h2 : ¬ s.ctx.isInFixingRange
      (s.inp + asr (toInt32 ((fetch mem s.inp <<< 6 : Nat) : Int)) 4))
    (h3 : 0x01ffffff ≤
      (asr (s.inp + asr (toInt32 ((fetch mem s.inp <<< 6 : Nat) : Int)) 4 - s.out) 2).natAbs)
    (h4 : (s.ctx.dat (s.ctx.getRefInsIndex s.inp)).fmap = [])
    (h5 : s.outBase % 4 = 0) :
    (fixBranchImm mem s).map (fun t => t.buf) =
      some (s.buf ++ (if (s.out + 12) % 8 = 0 then [] else [A64_NOP]) ++
        [0x58000071, 0x1000009e, 0xd61f0220,
         int64lo (s.inp + asr (toInt32 ((fetch mem s.inp <<< 6 : Nat) : Int)) 4),
         int64hi (s.inp + asr (toInt32 ((fetch mem s.inp <<< 6 : Nat) : Int)) 4)]) ∧
    (s.out + 4 * (if (s.out + 12) % 8 = 0 then 0 else 1) + 12) % 8 = 0 ∧
    (fixBranchImm mem s).map (fun t => (t.ctx.dat (s.ctx.getRefInsIndex s.inp)).ins) =
      some (s.out + 4 * (if (s.out + 12) % 8 = 0 then 0 else 1)) := by
  have h6 : s.out % 4 = 0 := by
    unfold TState.out
    omega
  have hne : ¬ fetch mem s.inp &&& 0xfc000000 = 0x14000000 := by
    rw [h1]
    decide
  by_cases hal : (s.out + 8) % 8 = 0
  · have hcl : ¬ (s.out + 12) % 8 = 0 := by omega
    refine ⟨?_, by rw [if_neg hcl]; omega, ?_⟩
    · simp only [fixBranchImm]
      rw [if_pos (Or.inr h1), Option.map_some']
      rw [if_pos (show (¬ s.ctx.isInFixingRange
          (s.inp + asr (toInt32 ((fetch mem s.inp <<< 6 : Nat) : Int)) 4) ∧
          0x01ffffff ≤ (asr (s.inp + asr (toInt32 ((fetch mem s.inp <<< 6 : Nat) : Int)) 4 -
            s.out) 2).natAbs) from ⟨h2, h3⟩)]
      rw [if_neg hne]
      rw [if_pos (show ((({ s with ctx := s.ctx.setCurrent (s.ctx.getRefInsIndex s.inp) s.out
        : TState }).out + 8).emod 8 = 0) from hal)]
      rw [if_neg hcl]
      congr 1
      rw [finishFix_buf_of_empty]
      show (((s.ctx.setCurrent (s.ctx.getRefInsIndex s.inp) s.out).setCurrent
        (s.ctx.getRefInsIndex s.inp) (({ s with
          ctx := s.ctx.setCurrent (s.ctx.getRefInsIndex s.inp) s.out : TState }).out + 4)).dat
        (s.ctx.getRefInsIndex s.inp)).fmap = []
      rw [setCurrent_fmap, setCurrent_fmap]
      exact h4
    · simp only [fixBranchImm]
      rw [if_pos (Or.inr h1), Option.map_some']
      rw [if_pos (show (¬ s.ctx.isInFixingRange
          (s.inp + asr (toInt32 ((fetch mem s.inp <<< 6 : Nat) : Int)) 4) ∧
          0x01ffffff ≤ (asr (s.inp + asr (toInt32 ((fetch mem s.inp <<< 6 : Nat) : Int)) 4 -
            s.out) 2).natAbs) from ⟨h2, h3⟩)]
      rw [if_neg hne]
      rw [if_pos (show ((({ s with ctx := s.ctx.setCurrent (s.ctx.getRefInsIndex s.inp) s.out
        : TState }).out + 8).emod 8 = 0) from hal)]
      rw [if_neg hcl]
      congr 1
      rw [finishFix_ins]
      show (((s.ctx.setCurrent (s.ctx.getRefInsIndex s.inp) s.out).setCurrent
        (s.ctx.getRefInsIndex s.inp) (({ s with
          ctx := s.ctx.setCurrent (s.ctx.getRefInsIndex s.inp) s.out : TState }).out + 4)).dat
        (s.ctx.getRefInsIndex s.inp)).ins = s.out + 4 * 1
      rw [setCurrent_ins_self]
      show s.out + 4 = s.out + 4 * 1
      ring
  · have hcl : (s.out + 12) % 8 = 0 := by omega
    refine ⟨?_, by rw [if_pos hcl]; omega, ?_⟩
    · simp only [fixBranchImm]
      rw [if_pos (Or.inr h1), Option.map_some']
      rw [if_pos (show (¬ s.ctx.isInFixingRange
          (s.inp + asr (toInt32 ((fetch mem s.inp <<< 6 : Nat) : Int)) 4) ∧
          0x01ffffff ≤ (asr (s.inp + asr (toInt32 ((fetch mem s.inp <<< 6 : Nat) : Int)) 4 -
            s.out) 2).natAbs) from ⟨h2, h3⟩)]
      rw [if_neg hne]
      rw [if_neg (show ¬ ((({ s with ctx := s.ctx.setCurrent (s.ctx.getRefInsIndex s.inp) s.out
        : TState }).out + 8).emod 8 = 0) from hal)]
      rw [if_pos hcl]
      congr 1
      rw [finishFix_buf_of_empty]
      · simp
      · show ((s.ctx.setCurrent (s.ctx.getRefInsIndex s.inp) s.out).dat
          (s.ctx.getRefInsIndex s.inp)).fmap = []
        rw [setCurrent_fmap]
        exact h4
    · simp only [fixBranchImm]
      rw [if_pos (Or.inr h1), Option.map_some']
      rw [if_pos (show (¬ s.ctx.isInFixingRange
          (s.inp + asr (toInt32 ((fetch mem s.inp <<< 6 : Nat) : Int)) 4) ∧
          0x01ffffff ≤ (asr (s.inp + asr (toInt32 ((fetch mem s.inp <<< 6 : Nat) : Int)) 4 -
            s.out) 2).natAbs) from ⟨h2, h3⟩)]
      rw [if_neg hne]
      rw [if_neg (show ¬ ((({ s with ctx := s.ctx.setCurrent (s.ctx.getRefInsIndex s.inp) s.out
        : TState }).out + 8).emod 8 = 0) from hal)]
      rw [if_pos hcl]
      congr 1
      rw [finishFix_ins]
      show ((s.ctx.setCurrent (s.ctx.getRefInsIndex s.inp) s.out).dat
        (s.ctx.getRefInsIndex s.inp)).ins = s.out + 4 * 0
      rw [setCurrent_ins_self]
      ring

end And64

namespace And64

/-- C7: for every conditional branch (`B.cond`, `CBZ`/`CBNZ`,
`TBZ`/`TBNZ`) whose target is outside the window and whose new
displacement overflows its immediate field, the rewriter prepends a NOP
iff the literal position `out + 4` words (16 bytes) is not 8-aligned,
then emits the 6-word sequence whose first word is
`(((8 >> 2) << 5) & ~low_field_mask) | (ins & low_field_mask)` (the
original condition/register/bit-index bits with displacement `+8`),
followed by `B #20`, `LDR X17, #8`, `BR X17` and the 8-byte target; the
literal lands 8-aligned. -/
theorem c7_cond_long_form (mem : Int → Nat) (s : TState) (lmask : Nat)
    (h1 : condLmask (fetch mem s.inp) = some lmask)
    (h2 : ¬ s.ctx.isInFixingRange (s.inp + asr (toInt32 (((fetch mem s.inp &&&
      (0xffffffff ^^^ lmask)) <<< clz32 (0xffffffff ^^^ lmask) : Nat) : Int))
      (3 + clz32 (0xffffffff ^^^ lmask))))
    (h3 : (0xffffffff ^^^ lmask) >>> 6 ≤ (asr (s.inp + asr (toInt32 (((fetch mem s.inp &&&
      (0xffffffff ^^^ lmask)) <<< clz32 (0xffffffff ^^^ lmask) : Nat) : Int))
      (3 + clz32 (0xffffffff ^^^ lmask)) - s.out) 2).natAbs)
    (h4 : (s.ctx.dat (s.ctx.getRefInsIndex s.inp)).fmap = [])
    (h5 : s.outBase % 4 = 0) :
    (fixCond mem s).map (fun t => t.buf) =
      some (s.buf ++ (if (s.out + 16) % 8 = 0 then [] else [A64_NOP]) ++
        [((8 >>> 2) <<< 5) &&& (0xffffffff ^^^ lmask) ||| (fetch mem s.inp &&& lmask),
         0x14000005, 0x58000051, 0xd61f0220,
         int64lo (s.inp + asr (toInt32 (((fetch mem s.inp &&& (0xffffffff ^^^ lmask)) <<<
           clz32 (0xffffffff ^^^ lmask) : Nat) : Int)) (3 + clz32 (0xffffffff ^^^ lmask))),
         int64hi (s.inp + asr (toInt32 (((fetch mem s.inp &&& (0xffffffff ^^^ lmask)) <<<
           clz32 (0xffffffff ^^^ lmask) : Nat) : Int)) (3 + clz32 (0xffffffff ^^^ lmask)))]) ∧
    (s.out + 4 * (if (s.out + 16) % 8 = 0 then 0 else 1) + 16) % 8 = 0 := by
  have h6 : s.out % 4 = 0 := by
    unfold TState.out
    omega
  by_cases hal : (s.out + 16) % 8 = 0
  · refine ⟨?_, by rw [if_pos hal]; omega⟩
    simp only [fixCond, h1]
    rw [if_pos (show (¬ s.ctx.isInFixingRange (s.inp + asr (toInt32 (((fetch mem s.inp &&&
        (0xffffffff ^^^ lmask)) <<< clz32 (0xffffffff ^^^ lmask) : Nat) : Int))
        (3 + clz32 (0xffffffff ^^^ lmask))) ∧
        (0xffffffff ^^^ lmask) >>> 6 ≤ (asr (s.inp + asr (toInt32 (((fetch mem s.inp &&&
        (0xffffffff ^^^ lmask)) <<< clz32 (0xffffffff ^^^ lmask) : Nat) : Int))
        (3 + clz32 (0xffffffff ^^^ lmask)) - s.out) 2).natAbs) from ⟨h2, h3⟩)]
    rw [if_neg (show ¬ ¬ ((({ s with ctx := s.ctx.setCurrent (s.ctx.getRefInsIndex s.inp) s.out
      : TState }).out + 16).emod 8 = 0) from not_not_intro hal)]
    rw [Option.map_some']
    rw [if_pos hal]
    congr 1
    rw [finishFix_buf_of_empty]
    · simp
    · show ((s.ctx.setCurrent (s.ctx.getRefInsIndex s.inp) s.out).dat
        (s.ctx.getRefInsIndex s.inp)).fmap = []
      rw [setCurrent_fmap]
      exact h4
  · refine ⟨?_, by rw [if_neg hal]; omega⟩
    simp only [fixCond, h1]
    rw [if_pos (show (¬ s.ctx.isInFixingRange (s.inp + asr (toInt32 (((fetch mem s.inp &&&
        (0xffffffff ^^^ lmask)) <<< clz32 (0xffffffff ^^^ lmask) : Nat) : Int))
        (3 + clz32 (0xffffffff ^^^ lmask))) ∧
        (0xffffffff ^^^ lmask) >>> 6 ≤ (asr (s.inp + asr (toInt32 (((fetch mem s.inp &&&
        (0xffffffff ^^^ lmask)) <<< clz32 (0xffffffff ^^^ lmask) : Nat) : Int))
        (3 + clz32 (0xffffffff ^^^ lmask)) - s.out) 2).natAbs) from ⟨h2, h3⟩)]
    rw [if_pos (show ¬ ((({ s with ctx := s.ctx.setCurrent (s.ctx.getRefInsIndex s.inp) s.out
      : TState }).out + 16).emod 8 = 0) from hal)]
    rw [Option.map_some']
    rw [if_neg hal]
    congr 1
    rw [finishFix_buf_of_empty]
    show (((s.ctx.setCurrent (s.ctx.getRefInsIndex s.inp) s.out).setCurrent
      (s.ctx.getRefInsIndex s.inp) (({ s with
        ctx := s.ctx.setCurrent (s.ctx.getRefInsIndex s.inp) s.out : TState }).out + 4)).dat
      (s.ctx.getRefInsIndex s.inp)).fmap = []
    rw [setCurrent_fmap, setCurrent_fmap]
    exact h4

/-- C8: for every `ADRP` in the window, if its computed page-base target
is outside the window the rewriter always emits the literal-load form
`LDR Xd, #8; B #12; <8-byte page base>` with a NOP prepended iff
`out + 2` words is not 8-aligned; if the target is inside the window the
rewriter copies the original word verbatim (one word of output). -/
theorem c8_adrp_parts (mem : Int → Nat) (s : TState)
    (h1 : fetch mem s.inp &&& 0x9f000000 = 0x90000000)
    (h4 : (s.ctx.dat (s.ctx.getRefInsIndex s.inp)).fmap = []) :
    (s.ctx.isInFixingRange ((s.inp - s.inp.emod 0x1000) +
        (((lowBits (asr (toInt32 ((fetch mem s.inp <<< 8 : Nat) : Int)) 11) 32 &&& 0xfffffffc |||
          ((fetch mem s.inp <<< 1) % 2 ^ 32) >>> 30) <<< 12) % 2 ^ 32 : Nat)) →
      (fixPcreladdr mem s).map (fun t => t.buf) = some (s.buf ++ [fetch mem s.inp])) ∧
    (¬ s.ctx.isInFixingRange ((s.inp - s.inp.emod 0x1000) +
        (((lowBits (asr (toInt32 ((fetch mem s.inp <<< 8 : Nat) : Int)) 11) 32 &&& 0xfffffffc |||
          ((fetch mem s.inp <<< 1) % 2 ^ 32) >>> 30) <<< 12) % 2 ^ 32 : Nat)) →
      (fixPcreladdr mem s).map (fun t => t.buf) =
        some (s.buf ++ (if (s.out + 8) % 8 = 0 then [] else [A64_NOP]) ++
          [0x58000000 ||| ((8 >>> 2) <<< 5) &&& (0xffffffff ^^^ 0x9f000000) |||
            (fetch mem s.inp &&& 0x0000001f), 0x14000003,
           int64lo ((s.inp - s.inp.emod 0x1000) +
            (((lowBits (asr (toInt32 ((fetch mem s.inp <<< 8 : Nat) : Int)) 11) 32 &&& 0xfffffffc |||
              ((fetch mem s.inp <<< 1) % 2 ^ 32) >>> 30) <<< 12) % 2 ^ 32 : Nat)),
           int64hi ((s.inp - s.inp.emod 0x1000) +
            (((lowBits (asr (toInt32 ((fetch mem s.inp <<< 8 : Nat) : Int)) 11) 32 &&& 0xfffffffc |||
              ((fetch mem s.inp <<< 1) % 2 ^ 32) >>> 30) <<< 12) % 2 ^ 32 : Nat))])) := by
  have hne : ¬ fetch mem s.inp &&& 0x9f000000 = 0x10000000 := by
    rw [h1]
    decide
  constructor
  · intro hin
    simp only [fixPcreladdr]
    rw [if_neg hne, if_pos h1, Option.map_some']
    rw [if_pos hin]
    congr 1
    rw [finishFix_buf_of_empty]
    show ((s.ctx.setCurrent (s.ctx.getRefInsIndex s.inp) s.out).dat
      (s.ctx.getRefInsIndex s.inp)).fmap = []
    rw [setCurrent_fmap]
    exact h4
  · intro hnin
    by_cases hal : (s.out + 8) % 8 = 0
    · simp only [fixPcreladdr]
      rw [if_neg hne, if_pos h1, Option.map_some']
      rw [if_neg hnin]
      rw [if_neg (show ¬ ¬ ((({ s with ctx := s.ctx.setCurrent (s.ctx.getRefInsIndex s.inp) s.out
        : TState }).out + 8).emod 8 = 0) from not_not_intro hal)]
      rw [if_pos hal]
      congr 1
      rw [finishFix_buf_of_empty]
      · simp
      · show ((s.ctx.setCurrent (s.ctx.getRefInsIndex s.inp) s.out).dat
          (s.ctx.getRefInsIndex s.inp)).fmap = []
        rw [setCurrent_fmap]
        exact h4
    · simp only [fixPcreladdr]
      rw [if_neg hne, if_pos h1, Option.map_some']
      rw [if_neg hnin]
      rw [if_pos (show ¬ ((({ s with ctx := s.ctx.setCurrent (s.ctx.getRefInsIndex s.inp) s.out
        : TState }).out + 8).emod 8 = 0) from hal)]
      rw [if_neg hal]
      congr 1
      rw [finishFix_buf_of_empty]
      show (((s.ctx.setCurrent (s.ctx.getRefInsIndex s.inp) s.out).setCurrent
        (s.ctx.getRefInsIndex s.inp) (({ s with
          ctx := s.ctx.setCurrent (s.ctx.getRefInsIndex s.inp) s.out : TState }).out + 4)).dat
        (s.ctx.getRefInsIndex s.inp)).fmap = []
      rw [setCurrent_fmap, setCurrent_fmap]
      exact h4

theorem fixBranchImm_backward (mem : Int → Nat) (s : TState)
    (h1 : fetch mem s.inp &&& 0xfc000000 = 0x14000000 ∨
      fetch mem s.inp &&& 0xfc000000 = 0x94000000)
    (h2 : s.ctx.isInFixingRange
      (s.inp + asr (toInt32 ((fetch mem s.inp <<< 6 : Nat) : Int)) 4))
    (h3 : s.ctx.getRefInsIndex
        (s.inp + asr (toInt32 ((fetch mem s.inp <<< 6 : Nat) : Int)) 4) ≤
      s.ctx.getRefInsIndex s.inp)
    (h4 : (s.ctx.dat (s.ctx.getRefInsIndex s.inp)).fmap = []) :
    (fixBranchImm mem s).map (fun t => t.buf) =
      some (s.buf ++ [fetch mem s.inp &&& 0xfc000000 |||
        lowBits (asr (((s.ctx.setCurrent (s.ctx.getRefInsIndex s.inp) s.out).dat
          (s.ctx.getRefInsIndex
            (s.inp + asr (toInt32 ((fetch mem s.inp <<< 6 : Nat) : Int)) 4))).ins - s.out) 2) 26]) := by
  simp only [fixBranchImm]
  rw [if_pos h1, Option.map_some']
  rw [if_neg (show ¬ (¬ s.ctx.isInFixingRange
      (s.inp + asr (toInt32 ((fetch mem s.inp <<< 6 : Nat) : Int)) 4) ∧
      0x01ffffff ≤ (asr (s.inp + asr (toInt32 ((fetch mem s.inp <<< 6 : Nat) : Int)) 4 -
        s.out) 2).natAbs) from fun hc => absurd h2 hc.1)]
  rw [if_pos h2, if_pos h3]
  congr 1
  rw [finishFix_buf_of_empty]
  · rfl
  · show ((s.ctx.setCurrent (s.ctx.getRefInsIndex s.inp) s.out).dat
      (s.ctx.getRefInsIndex s.inp)).fmap = []
    rw [setCurrent_fmap]
    exact h4

end And64

namespace And64

/-! ### Concrete inputs used by counterexamples and witnesses -/

/-- Memory holding a single far conditional branch `B.EQ #+16`
(`0x54000080`) at `0x1000`. -/
def c1mem : Int → Nat := fun a => if a = 0x1000 then 0x54000080 else 0

/-- Memory holding four NOP-class words everywhere (no PC-relative
operands). -/
def c2mem : Int → Nat := fun _ => 0xd503201f

/-- Memory holding NOP-class words everywhere. -/
def c3mem : Int → Nat := fun _ => 0xd503201f

/-- Memory for the backward-reference window: two NOPs at `0x1000`,
`0x1004` and a `B #-8` (`0x17fffffe`) at `0x1008`. -/
def c4mem : Int → Nat := fun a => if a = 0x1008 then 0x17fffffe else 0xd503201f

/-- State of the relocator at the third instruction of the `c4mem`
window: two words already copied, their positions recorded. -/
def c4st : TState :=
  { inp := 0x1008, outBase := 0x2000, buf := [0xd503201f, 0xd503201f],
    ctx := { basep := 0x1000, endp := 0x100c, dat := fun j =>
      if j = 0 then ⟨0x2000, []⟩ else if j = 1 then ⟨0x2004, []⟩ else ⟨0, []⟩ } }

/-- Memory holding `B #+4` (`0x14000001`) at `0x08000000`. -/
def c5mem : Int → Nat := fun a => if a = 0x08000000 then 0x14000001 else 0

/-- State placing the output cursor exactly `2^25 - 1` words short of the
branch target. -/
def c5st : TState :=
  { inp := 0x08000000, outBase := 8, buf := [],
    ctx := { basep := 0x08000000, endp := 0x08000004, dat := fun _ => ⟨0, []⟩ } }

/-- Memory holding `B #+4` at `0x1000`. -/
def c5wmem : Int → Nat := fun a => if a = 0x1000 then 0x14000001 else 0

/-- State with an in-range displacement to the target of `c5wmem`. -/
def c5wst : TState :=
  { inp := 0x1000, outBase := 0x2000, buf := [],
    ctx := { basep := 0x1000, endp := 0x1004, dat := fun _ => ⟨0, []⟩ } }

/-- Memory holding `BL #+4` (`0x94000001`) at `0x1000`. -/
def c6mem : Int → Nat := fun a => if a = 0x1000 then 0x94000001 else 0

/-- State far away from the `BL` target. -/
def c6st : TState :=
  { inp := 0x1000, outBase := 0x40000000, buf := [],
    ctx := { basep := 0x1000, endp := 0x1004, dat := fun _ => ⟨0, []⟩ } }

/-- Memory holding `B.EQ #+16` (`0x54000080`) at `0x1000`. -/
def c7mem : Int → Nat := fun a => if a = 0x1000 then 0x54000080 else 0

/-- State far away from the conditional-branch target. -/
def c7st : TState :=
  { inp := 0x1000, outBase := 0x40000004, buf := [],
    ctx := { basep := 0x1000, endp := 0x1004, dat := fun _ => ⟨0, []⟩ } }

/-- Memory holding `ADRP X1, #0` (`0x90000001`) at `0x1000`: its computed
page base `0x1000` lies inside the one-word window. -/
def c8mem : Int → Nat := fun a => if a = 0x1000 then 0x90000001 else 0

/-- State for the `ADRP`-in-window case. -/
def c8st : TState :=
  { inp := 0x1000, outBase := 0x2000, buf := [],
    ctx := { basep := 0x1000, endp := 0x1004, dat := fun _ => ⟨0, []⟩ } }

/-- Memory holding `PRFM literal` (`0xd8000000`) at `0x1000`. -/
def c9m1 : Int → Nat := fun a => if a = 0x1000 then 0xd8000000 else 0

/-- Memory holding `B.EQ #+16` (`0x54000080`) at `0x1000`. -/
def c9m2 : Int → Nat := fun a => if a = 0x1000 then 0x54000080 else 0

/-- State for the advance-bound counterexamples. -/
def c9st : TState :=
  { inp := 0x1000, outBase := 0x40000004, buf := [],
    ctx := { basep := 0x1000, endp := 0x1004, dat := fun _ => ⟨0, []⟩ } }

/-- Result state of the `PRFM` rewriter call, used by the advance-bound
witness. -/
def c9res : TState := (fixLoadlit c9m1 c9st).getD c9st

end And64

namespace And64

/-! ### Claim theorems -/

/-- C1 (counterexample): the claim bounds the relocator's total output by
`N * 10 * 4` bytes.  For the one-instruction window holding a far
conditional branch, relocated into a 4-byte-aligned (not 8-byte-aligned)
buffer, the relocator writes 11 words = 44 bytes, exceeding the claimed
`1 * 10 * 4 = 40` bytes: a caller-supplied buffer of the claimed size is
overrun. -/
theorem c1_counterexample :
    (fixInstructions c1mem 0x1000 1 0x40000004).buf.length * 4 = 44 ∧
      1 * 10 * 4 < 44 := by
  exact ⟨rfl, by decide⟩

/-- C1 (amended): the total output the relocator writes — rewritten
instructions, alignment NOPs, inline literals and the tail jump — is at
most `(9 * N + 5) * 4` bytes for a window of `N` instructions.  At `N = 5`
this equals `N * 10 * 4 = 200` bytes, but for `N < 5` the output can
exceed `N * 10 * 4` bytes. -/
theorem c1_output_bound :
    ∀ (mem : Int → Nat) (inp0 : Int) (count : Nat) (outBase : Int),
      (fixInstructions mem inp0 count outBase).buf.length * 4 ≤ (9 * count + 5) * 4 := by
  intro mem inp0 count outBase
  have h := fixInstructions_len mem inp0 count outBase
  omega

/-- C2 (code bug): the buffer-size precheck of `A64HookFunctionV` compares
`rwx_size` against `count * 10` instead of the documented
`count * 10 * sizeof(uint32_t)` bytes.  With a long patch (`count = 4`,
`symbol + 8` 8-aligned, far `replace`) and a 40-byte buffer — far below
the worst-case `4 * 10 * 4 = 160` bytes — the precheck passes, the
relocator runs, and the hook is installed with a non-null return. -/
theorem c2_size_check_bug :
    (A64HookFunctionV c2mem 0 0x40000000 (some 0x2000) 40 true).ret = some 0x2000 ∧
    (A64HookFunctionV c2mem 0 0x40000000 (some 0x2000) 40 true).trampBuf =
      some (fixInstructions c2mem 0 4 0x2000).buf ∧
    40 < 4 * 10 * 4 := by
  exact ⟨rfl, rfl, by decide⟩

/-- C3 (counterexample): the claim says that on an mprotect failure
neither the trampoline buffer nor the target is written.  With a non-null
buffer of sufficient size and a failing mprotect, the installer returns
null and leaves the target unchanged — but the trampoline buffer has
already been filled (the relocator runs before the mprotect attempt). -/
theorem c3_counterexample :
    (A64HookFunctionV c3mem 0x1000 0x1100 (some 0x2000) 40 false).ret = none ∧
    (A64HookFunctionV c3mem 0x1000 0x1100 (some 0x2000) 40 false).trampBuf =
      some [0xd503201f, 0x17fffc00] := by
  exact ⟨rfl, rfl⟩

/-- C3 (amended): whenever the page-protection change fails, the installer
returns null and the first `N` words of the hooked function are unchanged;
the trampoline buffer, however, may already have been written, because the
relocator runs before the mprotect attempt. -/
theorem c3_mprotect_failure :
    ∀ (mem : Int → Nat) (symbol replace : Int) (rwx : Option Int) (rwxSize : Nat),
      (A64HookFunctionV mem symbol replace rwx rwxSize false).ret = none ∧
      (A64HookFunctionV mem symbol replace rwx rwxSize false).origWords = none := by
  intro mem symbol replace rwx rwxSize
  simp only [A64HookFunctionV]
  repeat' split
  all_goals first | exact ⟨rfl, rfl⟩ | simp_all

/-- C4: cross-reference handling of the relocator.  (1) After the
relocator finishes a whole window, every deferred fix-up list is empty.
(2) A rewriter call changes a fix-up list only by draining the current
instruction's list or by appending to the list of a strictly later
instruction (a forward reference inside the window).  (3) A `B`/`BL`
whose in-window target has index at most the current one is resolved
immediately from the already-recorded output address of the target, with
no deferred fix-up filed. -/
theorem c4_cross_reference_closure :
    (∀ (mem : Int → Nat) (inp0 : Int) (count : Nat) (outBase : Int) (j : Int),
      ((fixInstructions mem inp0 count outBase).ctx.dat j).fmap = []) ∧
    (∀ (mem : Int → Nat) (s s' : TState) (j : Int),
      (fixBranchImm mem s = some s' ∨ fixCond mem s = some s' ∨
        fixLoadlit mem s = some s' ∨ fixPcreladdr mem s = some s') →
      (s'.ctx.dat j).fmap ≠ (s.ctx.dat j).fmap →
      (j = s.ctx.getRefInsIndex s.inp ∧ (s'.ctx.dat j).fmap = []) ∨
        s.ctx.getRefInsIndex s.inp < j) ∧
    (∀ (mem : Int → Nat) (s : TState),
      (fetch mem s.inp &&& 0xfc000000 = 0x14000000 ∨
        fetch mem s.inp &&& 0xfc000000 = 0x94000000) →
      s.ctx.isInFixingRange
        (s.inp + asr (toInt32 ((fetch mem s.inp <<< 6 : Nat) : Int)) 4) →
      s.ctx.getRefInsIndex
          (s.inp + asr (toInt32 ((fetch mem s.inp <<< 6 : Nat) : Int)) 4) ≤
        s.ctx.getRefInsIndex s.inp →
      (s.ctx.dat (s.ctx.getRefInsIndex s.inp)).fmap = [] →
      (fixBranchImm mem s).map (fun t => t.buf) =
        some (s.buf ++ [fetch mem s.inp &&& 0xfc000000 |||
          lowBits (asr (((s.ctx.setCurrent (s.ctx.getRefInsIndex s.inp) s.out).dat
            (s.ctx.getRefInsIndex
              (s.inp + asr (toInt32 ((fetch mem s.inp <<< 6 : Nat) : Int)) 4))).ins -
            s.out) 2) 26])) := by
  refine ⟨fun mem inp0 count outBase j => fixInstructions_fmap mem inp0 count outBase j,
    ?_, fun mem s h1 h2 h3 h4 => fixBranchImm_backward mem s h1 h2 h3 h4⟩
  intro mem s s' j hor hne
  have hfs : fmapStep s s' := by
    rcases hor with h | h | h | h
    · exact (fixBranchImm_spec h).2.2.2.2.2.2
    · exact (fixCond_spec h).2.2.2.2.2.2
    · exact (fixLoadlit_spec h).2.2.2.2.2.2
    · exact (fixPcreladdr_spec h).2.2.2.2.2.2
  rcases hfs j with hval | ⟨hgt, _, _⟩
  · by_cases hj : j = s.ctx.getRefInsIndex s.inp
    · left
      refine ⟨hj, ?_⟩
      rw [hval, if_pos hj]
    · exact absurd (by rw [hval, if_neg hj]) hne
  · right
    exact hgt

/-- C4 (witness): on the three-word window whose last word is `B #-8`
(a backward self-reference), the fix-up lists end empty, and the backward
branch is resolved immediately from the recorded output address of
instruction 0. -/
theorem c4_witness :
    ((fixInstructions c4mem 0x1000 3 0x2000).ctx.dat 0).fmap = [] ∧
    ((fixInstructions c4mem 0x1000 3 0x2000).ctx.dat 2).fmap = [] ∧
    (fixBranchImm c4mem c4st).map (fun t => t.buf) =
      some (c4st.buf ++ [fetch c4mem c4st.inp &&& 0xfc000000 |||
        lowBits (asr (((c4st.ctx.setCurrent (c4st.ctx.getRefInsIndex c4st.inp) c4st.out).dat
          (c4st.ctx.getRefInsIndex
            (c4st.inp + asr (toInt32 ((fetch c4mem c4st.inp <<< 6 : Nat) : Int)) 4))).ins -
          c4st.out) 2) 26]) :=
  ⟨c4_cross_reference_closure.1 c4mem 0x1000 3 0x2000 0,
   c4_cross_reference_closure.1 c4mem 0x1000 3 0x2000 2,
   c4_cross_reference_closure.2.2 c4mem c4st (by decide) (by decide) (by decide) rfl⟩

/-- C5 (counterexample): the claim emits a single re-encoded word whenever
`|out_off| < 2^25`.  At `out_off = 2^25 - 1` (which satisfies
`|out_off| < 2^25`), with the target outside the window, the code instead
emits the 4-word absolute-jump form `LDR X17, #8; BR X17; <target>`,
because its cutoff is `llabs(out_off) >= 0x01FFFFFF = 2^25 - 1`. -/
theorem c5_counterexample :
    (asr (c5st.inp + asr (toInt32 ((fetch c5mem c5st.inp <<< 6 : Nat) : Int)) 4 -
      c5st.out) 2).natAbs < 2 ^ 25 ∧
    ¬ c5st.ctx.isInFixingRange
      (c5st.inp + asr (toInt32 ((fetch c5mem c5st.inp <<< 6 : Nat) : Int)) 4) ∧
    (fixBranchImm c5mem c5st).map (fun t => t.buf) =
      some [0x58000051, 0xd61f0220, 0x08000004, 0] := by
  exact ⟨by decide, by decide, rfl⟩

/-- C5 (amended): for every `B`/`BL` whose target lies outside the window,
if the new word offset satisfies `|out_off| < 2^25 - 1` then the rewriter
emits exactly one word `opcode ||| (out_off & 0x03FFFFFF)` (the original
top-six-bit opcode with the re-computed 26-bit immediate), advancing the
output cursor by one word. -/
theorem c5_branch_in_range_claim (mem : Int → Nat) (s : TState)
    (h1 : fetch mem s.inp &&& 0xfc000000 = 0x14000000 ∨
      fetch mem s.inp &&& 0xfc000000 = 0x94000000)
    (h2 : ¬ s.ctx.isInFixingRange
      (s.inp + asr (toInt32 ((fetch mem s.inp <<< 6 : Nat) : Int)) 4))
    (h3 : (asr (s.inp + asr (toInt32 ((fetch mem s.inp <<< 6 : Nat) : Int)) 4 -
      s.out) 2).natAbs < 0x01ffffff)
    (h4 : (s.ctx.dat (s.ctx.getRefInsIndex s.inp)).fmap = []) :
    (fixBranchImm mem s).map (fun t => t.buf) =
      some (s.buf ++ [fetch mem s.inp &&& 0xfc000000 |||
        lowBits (asr (s.inp + asr (toInt32 ((fetch mem s.inp <<< 6 : Nat) : Int)) 4 -
          s.out) 2) 26]) :=
  c5_branch_in_range mem s h1 h2 h3 h4

/-- C5 (witness): the in-range re-encoding applied to a concrete `B #+4`
relocated 4 KiB away. -/
theorem c5_witness :
    (fixBranchImm c5wmem c5wst).map (fun t => t.buf) =
      some (c5wst.buf ++ [fetch c5wmem c5wst.inp &&& 0xfc000000 |||
        lowBits (asr (c5wst.inp + asr (toInt32 ((fetch c5wmem c5wst.inp <<< 6 : Nat) : Int)) 4 -
          c5wst.out) 2) 26]) :=
  c5_branch_in_range_claim c5wmem c5wst (by decide) (by decide) (by decide) rfl

end And64

namespace And64

/-- C6 (witness): the long `BL` form on a concrete far `BL #+4`. -/
theorem c6_witness :
    (fixBranchImm c6mem c6st).map (fun t => t.buf) =
      some (c6st.buf ++ (if (c6st.out + 12) % 8 = 0 then [] else [A64_NOP]) ++
        [0x58000071, 0x1000009e, 0xd61f0220,
         int64lo (c6st.inp + asr (toInt32 ((fetch c6mem c6st.inp <<< 6 : Nat) : Int)) 4),
         int64hi (c6st.inp + asr (toInt32 ((fetch c6mem c6st.inp <<< 6 : Nat) : Int)) 4)]) ∧
    (c6st.out + 4 * (if (c6st.out + 12) % 8 = 0 then 0 else 1) + 12) % 8 = 0 ∧
    (fixBranchImm c6mem c6st).map
        (fun t => (t.ctx.dat (c6st.ctx.getRefInsIndex c6st.inp)).ins) =
      some (c6st.out + 4 * (if (c6st.out + 12) % 8 = 0 then 0 else 1)) :=
  c6_bl_long_form c6mem c6st (by decide) (by decide) (by decide) rfl (by decide)

/-- C7 (witness): the conditional-long-branch form on a concrete far
`B.EQ #+16` with a 4-mod-8 output cursor (NOP prepended). -/
theorem c7_witness :
    (fixCond c7mem c7st).map (fun t => t.buf) =
      some (c7st.buf ++ (if (c7st.out + 16) % 8 = 0 then [] else [A64_NOP]) ++
        [((8 >>> 2) <<< 5) &&& (0xffffffff ^^^ 0xff00001f) |||
          (fetch c7mem c7st.inp &&& 0xff00001f),
         0x14000005, 0x58000051, 0xd61f0220,
         int64lo (c7st.inp + asr (toInt32 (((fetch c7mem c7st.inp &&&
           (0xffffffff ^^^ 0xff00001f)) <<< clz32 (0xffffffff ^^^ 0xff00001f) : Nat) : Int))
           (3 + clz32 (0xffffffff ^^^ 0xff00001f))),
         int64hi (c7st.inp + asr (toInt32 (((fetch c7mem c7st.inp &&&
           (0xffffffff ^^^ 0xff00001f)) <<< clz32 (0xffffffff ^^^ 0xff00001f) : Nat) : Int))
           (3 + clz32 (0xffffffff ^^^ 0xff00001f)))]) ∧
    (c7st.out + 4 * (if (c7st.out + 16) % 8 = 0 then 0 else 1) + 16) % 8 = 0 :=
  c7_cond_long_form c7mem c7st 0xff00001f rfl (by decide) (by decide) rfl (by decide)

/-- C8 (witness): a concrete `ADRP X1, #0` whose page base falls inside
the window is copied verbatim. -/
theorem c8_witness :
    (fixPcreladdr c8mem c8st).map (fun t => t.buf) =
      some (c8st.buf ++ [fetch c8mem c8st.inp]) :=
  (c8_adrp_parts c8mem c8st (by decide) rfl).1 (by decide)

/-- C9 (counterexample): the claim bounds every rewriter call's cursor
advance to between 1 and 6 words.  The `PRFM literal` path of the
literal-load rewriter emits nothing (0 words), and the overflowing
conditional branch with an unaligned cursor emits 7 words (NOP plus the
6-word long form). -/
theorem c9_counterexample :
    (fixLoadlit c9m1 c9st).map (fun t => t.buf.length) = some 0 ∧
    (fixCond c9m2 c9st).map (fun t => t.buf.length) = some 7 := by
  exact ⟨rfl, rfl⟩

/-- C9 (amended): every call to one of the four rewriters advances the
output cursor by at least 0 and at most 9 words (`PRFM` emits nothing;
the 16-byte literal inline path can emit 3 NOPs + 2 words + 4 data
words). -/
theorem c9_advance_bounds :
    ∀ (mem : Int → Nat) (s s' : TState),
      (fixBranchImm mem s = some s' ∨ fixCond mem s = some s' ∨
        fixLoadlit mem s = some s' ∨ fixPcreladdr mem s = some s') →
      s.buf.length ≤ s'.buf.length ∧ s'.buf.length ≤ s.buf.length + 9 := by
  intro mem s s' hor
  rcases hor with h | h | h | h
  · obtain ⟨_, _, _, _, h5, h6, _⟩ := fixBranchImm_spec h
    exact ⟨h5, by omega⟩
  · obtain ⟨_, _, _, _, h5, h6, _⟩ := fixCond_spec h
    exact ⟨h5, by omega⟩
  · obtain ⟨_, _, _, _, h5, h6, _⟩ := fixLoadlit_spec h
    exact ⟨h5, by omega⟩
  · obtain ⟨_, _, _, _, h5, h6, _⟩ := fixPcreladdr_spec h
    exact ⟨h5, by omega⟩

/-- C9 (witness): the advance bounds applied to the concrete `PRFM`
call. -/
theorem c9_witness :
    c9st.buf.length ≤ c9res.buf.length ∧ c9res.buf.length ≤ c9st.buf.length + 9 :=
  c9_advance_bounds c9m1 c9st c9res (Or.inr (Or.inr (Or.inl rfl)))

/-- C10: when `A64HookFunctionV` is called with a null trampoline buffer
and the page-protection change succeeds, it still installs the diverting
prologue at the target function and returns null — a null return does not
imply the hook was not installed. -/
theorem c10_null_trampoline_install :
    ∀ (mem : Int → Nat) (symbol replace : Int) (rwxSize : Nat),
      (A64HookFunctionV mem symbol replace none rwxSize true).ret = none ∧
      (A64HookFunctionV mem symbol replace none rwxSize true).trampBuf = none ∧
      (A64HookFunctionV mem symbol replace none rwxSize true).origWords ≠ none := by
  intro mem symbol replace rwxSize
  simp only [A64HookFunctionV]
  repeat' split
  all_goals first
    | exact ⟨rfl, rfl, fun hh => Option.noConfusion hh⟩
    | simp_all

end And64
